import Mathlib

/-!
Shallow embedding of the errbot text backend (`errbot/backends/text.py`):
the identity model (`TextPerson`, `TextOccupant`), the room model
(`TextRoom`) together with the backend's room registry `_rooms`,
identifier resolution (`build_identifier`, `query_room`), the reaction
operations and the interactive session loop (`serve_forever`).

Python objects that are mutated in place (`TextRoom` instances) are
modelled with an explicit heap: a counter `heapSize` and a map `heapF`
from allocation ids to room records; Python object identity is equality
of allocation ids.  Console input and the host-framework callbacks are
modelled as an effect trace produced by the loop.
-/

/-- Python `str.__hash__` modelled as a deterministic function of the
string contents (CPython randomises the hash seed per process; for the
embedding only the fact that it is a function of the contents matters). -/
def pyStrHash (s : String) : Nat :=
  s.data.foldl (fun h c => h * 31 + c.toNat) 7

/-- `TextPerson.__init__(person, client=None, nick=None, fullname=None)`. -/
structure TextPerson where
  person : String
  client : Option String := none
  nick : Option String := none
  fullname : Option String := none
deriving DecidableEq

def mkTextPerson (p : String) : TextPerson := { person := p }

/-- `TextPerson.__eq__`: between two persons the `isinstance` guard
passes and the `person` strings are compared. -/
def textPersonEq (a b : TextPerson) : Bool := a.person == b.person

/-- `TextPerson.__hash__`: delegates to the identifier string's hash. -/
def textPersonHash (a : TextPerson) : Nat := pyStrHash a.person

/-- The `person` slot of a `TextOccupant`: the source stores either a raw
string (`'somebody'` in the synthetic occupant list) or a `TextPerson`. -/
inductive PyPersonRef where
  | str (s : String)
  | person (p : TextPerson)
deriving DecidableEq

/-- Python `==` between two such values: comparing a `str` with a
`TextPerson` falls back to `TextPerson.__eq__`, whose `isinstance` guard
fails, so mixed comparisons are `False`. -/
def pyPersonRefEq : PyPersonRef → PyPersonRef → Bool
  | .str a, .str b => a == b
  | .person a, .person b => textPersonEq a b
  | _, _ => false

/-- A `TextOccupant`: a person reference plus the heap id of its room. -/
structure OccVal where
  person : PyPersonRef
  room : Nat
deriving DecidableEq

/-- The mutable fields of one `TextRoom` object. -/
structure RoomData where
  name : String
  topic : String
  joined : Bool
  occupants : List OccVal
deriving DecidableEq

/-- The `TextBackend` state: configuration-derived identities, the
`_inroom` flag, the room registry `_rooms` (heap ids in insertion order)
and the heap of allocated `TextRoom` objects. -/
structure State where
  admin0 : String
  botIdentifier : TextPerson
  user : TextPerson
  inroom : Bool
  rooms : List Nat
  heapSize : Nat
  heapF : Nat → RoomData

def roomName (s : State) (id : Nat) : String := (s.heapF id).name

/-- The possible results of identifier resolution. -/
inductive Ident where
  | room (id : Nat)
  | person (p : TextPerson)
  | occupant (o : OccVal)
deriving DecidableEq

/-- Raised Python exceptions relevant to this module. -/
inductive Err where
  | valueError (m : String)
  | indexError
deriving DecidableEq

/-- The host framework's message value: body, sender, recipient. -/
structure Msg where
  body : String
  frm : Ident
  toI : Ident
deriving DecidableEq

/-- Python `s.startswith(c)` for a one-character prefix (`s[0] == c` on a
string known non-empty behaves the same). -/
def pyStartsWith (s : String) (c : Char) : Bool :=
  match s.data with
  | [] => false
  | d :: _ => d == c

/-- Python `s[1:]`. -/
def pyDrop1 (s : String) : String := String.mk s.data.tail

/-- Python `c in s`. -/
def pyContains (s : String) (c : Char) : Bool := s.data.any (· == c)

/-- Python `str.split('/')` at the character-list level. -/
def splitSlashL : List Char → List (List Char)
  | [] => [[]]
  | c :: rest =>
    match splitSlashL rest with
    | [] => []
    | g :: gs => if c = '/' then [] :: g :: gs else (c :: g) :: gs

def splitSlash (s : String) : List String := (splitSlashL s.data).map String.mk

/-- `TextRoom.__init__(name, bot)`: empty topic, not joined, and the fixed
synthetic occupant list — the raw string `'somebody'`, the first
configured administrator wrapped as a `TextPerson` (from the raw config
string), and the bot's own identifier.  `rid` is the id the new object is
being allocated at (the occupants reference their own room). -/
def mkRoomData (s : State) (name : String) (rid : Nat) : RoomData :=
  { name := name, topic := "", joined := false,
    occupants := [ { person := .str "somebody", room := rid },
                   { person := .person (mkTextPerson s.admin0), room := rid },
                   { person := .person s.botIdentifier, room := rid } ] }

/-- Allocation of a fresh `TextRoom` object on the heap. -/
def allocRoom (s : State) (name : String) : Nat × State :=
  (s.heapSize,
   { s with heapSize := s.heapSize + 1,
            heapF := fun i => if i = s.heapSize then mkRoomData s name s.heapSize
                              else s.heapF i })

/-- `text_room not in self._rooms` is a membership test up to
`TextRoom.__eq__`, which compares room names. -/
def containsName (s : State) (name : String) : Bool :=
  s.rooms.any (fun id => (s.heapF id).name == name)

def invalidRoomMsg : String := "A Room name must start by #."

def invalidIdentifierMsg : String :=
  "An identifier for the Text backend needs to start by # for a room or @ for a person."

def unpackMsg : String := "too many values to unpack"

/-- `TextBackend.query_room`: always constructs a fresh `TextRoom`,
registers it only when no registered room carries the same name, and
returns the fresh object either way.  `room[0]` on the empty string is an
IndexError. -/
def query_room (s : State) (room : String) : Except Err (Nat × State) :=
  match room.data with
  | [] => .error .indexError
  | c :: _ =>
    if c ≠ '#' then .error (.valueError invalidRoomMsg)
    else
      let name := pyDrop1 room
      let p := allocRoom s name
      if containsName p.2 name then .ok p
      else .ok (p.1, { p.2 with rooms := p.2.rooms ++ [p.1] })

/-- `TextBackend.build_identifier`.  Two source quirks are kept verbatim:
the plain-room branch passes `rem` (the token with its `#` already
stripped) to `query_room`, and the `#room/person` branch allocates a
fresh `TextRoom` that is never registered. -/
def build_identifier (s : State) (t : String) : Except Err (Ident × State) :=
  if pyStartsWith t '#' then
    let rem := pyDrop1 t
    if pyContains t '/' then
      match splitSlash rem with
      | [room, person] =>
        let p := allocRoom s room
        .ok (.occupant { person := .person (mkTextPerson person), room := p.1 }, p.2)
      | _ => .error (.valueError unpackMsg)
    else
      match query_room s rem with
      | .ok (rid, s') => .ok (.room rid, s')
      | .error e => .error e
  else if pyStartsWith t '@' then
    .ok (.person (mkTextPerson (pyDrop1 t)), s)
  else .error (.valueError invalidIdentifierMsg)

/-- In-place update of one room object's `_joined` flag. -/
def setJoined (s : State) (id : Nat) (b : Bool) : State :=
  { s with heapF := fun i => if i = id then { s.heapF id with joined := b }
                             else s.heapF i }

def roomJoin (s : State) (id : Nat) : State := setJoined s id true

def roomLeave (s : State) (id : Nat) : State := setJoined s id false

def roomCreate (s : State) (id : Nat) : State := setJoined s id true

def roomDestroy (s : State) (id : Nat) : State := setJoined s id false

/-- `TextOccupant.__eq__`: person equality and room equality, where
`TextRoom.__eq__` compares the names found on the heap. -/
def textOccupantEq (s : State) (a b : OccVal) : Bool :=
  pyPersonRefEq a.person b.person && (roomName s a.room == roomName s b.room)

/-- One outbound `send` call: recipient, body, and the `in_reply_to`
message. -/
structure SendEff where
  toI : Ident
  body : String
  inReplyTo : Option Msg
deriving DecidableEq

/-- `TextBackend._react(sign, msg, reaction)`: a single `send` addressed
to the message's sender, in reply to the message. -/
def textbackend_react (s : State) (sign : String) (msg : Msg) (reaction : String) :
    List SendEff × State :=
  ([{ toI := msg.frm, body := "reaction " ++ sign ++ ":" ++ reaction ++ ":",
      inReplyTo := some msg }], s)

def add_reaction (s : State) (msg : Msg) (reaction : String) : List SendEff × State :=
  textbackend_react s "+" msg reaction

def remove_reaction (s : State) (msg : Msg) (reaction : String) : List SendEff × State :=
  textbackend_react s "-" msg reaction

/-- ASCII reading of the `\w` class of `re`, plus the quote character that
the source pattern adds to the class. -/
def isWordChar (c : Char) : Bool := c.isAlphanum || c == '_' || c == Char.ofNat 39

/-- One-pass scanner equivalent to `re.findall` with the source pattern
(an `@` followed by a non-empty maximal run of word characters,
non-overlapping, left to right).  While inside a candidate match the
accumulator holds the reversed run. -/
def mentionsGo : List Char → Option (List Char) → List String
  | [], none => []
  | [], some run => if run.isEmpty then [] else [String.mk ('@' :: run.reverse)]
  | c :: rest, none =>
    if c == '@' then mentionsGo rest (some []) else mentionsGo rest none
  | c :: rest, some run =>
    if isWordChar c then mentionsGo rest (some (c :: run))
    else
      (if run.isEmpty then [] else [String.mk ('@' :: run.reverse)]) ++
        (if c == '@' then mentionsGo rest (some []) else mentionsGo rest none)

def findMentions (line : String) : List String := mentionsGo line.data none

/-- The mention list comprehension of `serve_forever`: each matched word
is passed to `build_identifier` with its first character stripped,
evaluated left to right, propagating the first raised error. -/
def resolveMentionsGo : State → List String → Except Err (List Ident × State)
  | s, [] => .ok ([], s)
  | s, w :: ws =>
    if pyStartsWith w '@' then
      match build_identifier s (pyDrop1 w) with
      | .error e => .error e
      | .ok (i, s') =>
        match resolveMentionsGo s' ws with
        | .error e => .error e
        | .ok (is, s'') => .ok (i :: is, s'')
    else resolveMentionsGo s ws

def resolveMentions (s : State) (entry : String) : Except Err (List Ident × State) :=
  resolveMentionsGo s (findMentions entry)

inductive PStatus where
  | online
  | offline
deriving DecidableEq

/-- Observable effects of the session: command injection, the connect and
disconnect callbacks, presence notifications, the input prompt, the
inbound-message and mention callbacks, the pacing delay, shutdown. -/
inductive Eff where
  | injectCommands
  | connect
  | presence (p : TextPerson) (st : PStatus)
  | prompt (frm : Ident) (toI : Ident)
  | messageCb (m : Msg)
  | mentionCb (m : Msg) (ids : List Ident)
  | sleepE
  | disconnect
  | shutdown
deriving DecidableEq

/-- One console event: a line (with a flag telling whether the host's
inbound-message handler raises on it), end-of-input, or an interrupt. -/
inductive Inp where
  | line (entry : String) (handlerRaises : Bool)
  | eof
  | interrupt
deriving DecidableEq

/-- How the `while True` loop ended: still blocked on input, a caught
EOFError/KeyboardInterrupt, or a propagating exception. -/
inductive LoopEnd where
  | pending
  | normalExit
  | raised (e : Err)
deriving DecidableEq

/-- Per-iteration `frm`/`to` selection; `self.rooms[0]` on an empty
registry would be an IndexError. -/
def frmTo (s : State) : Except Err (Ident × Ident) :=
  if s.inroom then
    match s.rooms with
    | [] => .error .indexError
    | r :: _ => .ok (.occupant { person := .person s.user, room := r }, .room r)
  else .ok (.person s.user, .person s.botIdentifier)

/-- The body of the `while True` loop of `serve_forever`, driven by a
finite list of console events; an exhausted list means the loop is still
blocked reading input (`pending`). -/
def loopRun : State → List Inp → List Eff × State × LoopEnd
  | s, [] => ([], s, .pending)
  | s, .eof :: _ => ([], s, .normalExit)
  | s, .interrupt :: _ => ([], s, .normalExit)
  | s, .line entry hr :: rest =>
    match frmTo s with
    | .error e => ([], s, .raised e)
    | .ok (frm, toI) =>
      let m : Msg := { body := entry, frm := frm, toI := toI }
      let pre : List Eff := [.prompt frm toI, .messageCb m]
      if hr then (pre, s, .raised (.valueError "callback_message"))
      else
        match resolveMentions s entry with
        | .error e => (pre, s, .raised e)
        | .ok (ids, s') =>
          let pre2 := pre ++ (if ids.isEmpty then [] else [.mentionCb m ids]) ++ [.sleepE]
          let r := loopRun s' rest
          (pre2 ++ r.1, r.2)

/-- The pre-loop section of `serve_forever`: inject the test commands,
synthesize and join `#testroom` when no room is registered yet, then the
connect callback and the online presence notification. -/
def startup (s : State) : List Eff × State :=
  let s1 :=
    if s.rooms.isEmpty then
      match query_room s "#testroom" with
      | .ok (rid, s') => roomJoin s' rid
      | .error _ => s
    else s
  ([.injectCommands, .connect, .presence s1.user .online], s1)

/-- `serve_forever`: startup, the read-eval loop, and the `finally` block
(offline presence, disconnect callback, shutdown) which runs on every
path that actually leaves the loop. -/
def serve_forever (s : State) (inps : List Inp) : List Eff × State × LoopEnd :=
  let st := startup s
  let r := loopRun st.2 inps
  if r.2.2 = .pending then (st.1 ++ r.1, r.2)
  else (st.1 ++ r.1 ++ [.presence r.2.1.user .offline, .disconnect, .shutdown], r.2)

def isCleanupEff : Eff → Bool
  | .presence _ .offline => true
  | .disconnect => true
  | .shutdown => true
  | _ => false

def isMentionCb : Eff → Bool
  | .mentionCb _ _ => true
  | _ => false

/-- The registry-mutating operations a session can perform. -/
inductive SOp where
  | opQuery (t : String)
  | opBuild (t : String)
  | opServeStart
deriving DecidableEq

def stepOp (s : State) : SOp → State
  | .opQuery t =>
    match query_room s t with
    | .ok (_, s') => s'
    | .error _ => s
  | .opBuild t =>
    match build_identifier s t with
    | .ok (_, s') => s'
    | .error _ => s
  | .opServeStart => (startup s).2

def runOps (s : State) (ops : List SOp) : State := ops.foldl stepOp s

/-- Registry well-formedness: registered ids are allocated and the
registered names are pairwise distinct. -/
def RegOk (s : State) : Prop :=
  (∀ id ∈ s.rooms, id < s.heapSize) ∧ (s.rooms.map (roomName s)).Nodup

def emptyRoomData : RoomData :=
  { name := "", topic := "", joined := false, occupants := [] }

/-- The backend state right after `__init__` with `BOT_ADMINS[0]` set to
`@admin` and the default bot identity `@errbot`. -/
def initState : State :=
  { admin0 := "@admin", botIdentifier := mkTextPerson "errbot",
    user := mkTextPerson "admin", inroom := false, rooms := [],
    heapSize := 0, heapF := fun _ => emptyRoomData }

/-- A state whose registry is non-empty. -/
def roomedState : State := { initState with rooms := [0] }

/-- The room id returned by a successful `query_room` call. -/
def qrRid (s : State) (t : String) : Nat :=
  match query_room s t with
  | .ok (r, _) => r
  | .error _ => 0

/-- The state after a successful `query_room` call. -/
def qrSt (s : State) (t : String) : State :=
  match query_room s t with
  | .ok (_, s') => s'
  | .error _ => s

/-! ### Helper lemmas -/

theorem data_hash_append (A : String) : ("#" ++ A).data = '#' :: A.data := by
  rw [String.data_append]; rfl

theorem pyDrop1_hash (A : String) : pyDrop1 ("#" ++ A) = A := by
  unfold pyDrop1
  rw [data_hash_append]
  rfl

theorem setJoined_rooms (s : State) (id : Nat) (b : Bool) :
    (setJoined s id b).rooms = s.rooms := rfl

theorem setJoined_heapF (s : State) (id : Nat) (b : Bool) (j : Nat) :
    (setJoined s id b).heapF j =
      if j = id then { s.heapF id with joined := b } else s.heapF j := rfl

theorem allocRoom_snd_heapF (s : State) (n : String) (i : Nat) :
    ((allocRoom s n).2).heapF i =
      if i = s.heapSize then mkRoomData s n s.heapSize else s.heapF i := rfl

/-! ### C9 -/

/-- C9: `TextPerson` equality holds exactly when the identifier strings
are equal (whatever the client tag, nickname and full name are), equal
persons have equal hashes, and `TextOccupant` equality holds exactly when
both the person slots compare equal and the rooms compare equal (room
equality being name equality). -/
theorem c9_person_occupant_equality :
    ∀ (a b : TextPerson) (s : State) (o1 o2 : OccVal),
      (textPersonEq a b = true ↔ a.person = b.person) ∧
      (textPersonEq a b = true → textPersonHash a = textPersonHash b) ∧
      (textOccupantEq s o1 o2 = true ↔
        (pyPersonRefEq o1.person o2.person = true ∧
          roomName s o1.room = roomName s o2.room)) := by
  intro a b s o1 o2
  refine ⟨?_, ?_, ?_⟩
  · simp [textPersonEq]
  · intro h
    simp only [textPersonEq, beq_iff_eq] at h
    simp [textPersonHash, h]
  · simp [textOccupantEq]

/-! ### C10 -/

/-- C10: for any message and reaction name, `add_reaction` performs
exactly one `send`, addressed to the message's sender, in reply to the
message, with body `reaction +:R:`; `remove_reaction` likewise with body
`reaction -:R:`; the backend state is unchanged. -/
theorem c10_reactions : ∀ (s : State) (msg : Msg) (r : String),
    add_reaction s msg r =
      ([{ toI := msg.frm, body := "reaction +:" ++ r ++ ":", inReplyTo := some msg }], s) ∧
    remove_reaction s msg r =
      ([{ toI := msg.frm, body := "reaction -:" ++ r ++ ":", inReplyTo := some msg }], s) := by
  intro s msg r
  exact ⟨rfl, rfl⟩

/-! ### C8 -/

/-- C8: each of `join`, `leave`, `create`, `destroy` is exactly an update
of the `_joined` flag of the targeted room object: the registry, the heap
size, and the room's name, topic and occupant list are untouched, and
only the targeted room's `joined` flag gets the new value. -/
theorem c8_room_ops_frame : ∀ (s : State) (id : Nat),
    roomJoin s id = setJoined s id true ∧
    roomLeave s id = setJoined s id false ∧
    roomCreate s id = setJoined s id true ∧
    roomDestroy s id = setJoined s id false ∧
    ∀ (b : Bool) (j : Nat),
      (setJoined s id b).rooms = s.rooms ∧
      (setJoined s id b).heapSize = s.heapSize ∧
      ((setJoined s id b).heapF j).name = (s.heapF j).name ∧
      ((setJoined s id b).heapF j).topic = (s.heapF j).topic ∧
      ((setJoined s id b).heapF j).occupants = (s.heapF j).occupants ∧
      ((setJoined s id b).heapF j).joined =
        (if j = id then b else (s.heapF j).joined) := by
  intro s id
  refine ⟨rfl, rfl, rfl, rfl, ?_⟩
  intro b j
  by_cases h : j = id <;> simp [setJoined, h]

/-! ### C7 -/

/-- C7: a token starting with neither `#` nor `@` (the empty token
included) makes `build_identifier` fail with the InvalidIdentifier
ValueError and produce no identity; a token starting with `@` resolves to
a `TextPerson` whose identifier is the token without its first character,
with no state change. -/
theorem c7_identifier_prefixes : ∀ (s : State) (t : String),
    (pyStartsWith t '#' = false → pyStartsWith t '@' = false →
      build_identifier s t = .error (.valueError invalidIdentifierMsg)) ∧
    (pyStartsWith t '@' = true →
      build_identifier s t = .ok (.person (mkTextPerson (pyDrop1 t)), s)) := by
  intro s t
  constructor
  · intro h1 h2
    simp [build_identifier, h1, h2]
  · intro h
    have h1 : pyStartsWith t '#' = false := by
      unfold pyStartsWith at h ⊢
      revert h
      cases ht : t.data with
      | nil => intro h; exact absurd h (by decide)
      | cons d l =>
        intro h
        have h' : (d == '@') = true := h
        have hd : d = '@' := by simpa using h'
        subst hd
        rfl
    simp [build_identifier, h1, h]

/-- Witness for C7 at the concrete tokens `luser` and `@bob`. -/
theorem c7_identifier_prefixes_witness :
    (pyStartsWith "luser" '#' = false ∧ pyStartsWith "luser" '@' = false ∧
      build_identifier initState "luser" = .error (.valueError invalidIdentifierMsg)) ∧
    (pyStartsWith "@bob" '@' = true ∧
      build_identifier initState "@bob" =
        .ok (.person (mkTextPerson (pyDrop1 "@bob")), initState)) :=
  ⟨⟨by decide, by decide,
    (c7_identifier_prefixes initState "luser").1 (by decide) (by decide)⟩,
   ⟨by decide, (c7_identifier_prefixes initState "@bob").2 (by decide)⟩⟩

/-! ### C1 -/

theorem query_room_hash (s : State) (A : String) :
    query_room s ("#" ++ A) =
      (if containsName (allocRoom s A).2 A then .ok (allocRoom s A)
       else .ok ((allocRoom s A).1,
         { (allocRoom s A).2 with
             rooms := (allocRoom s A).2.rooms ++ [(allocRoom s A).1] })) := by
  unfold query_room
  rw [data_hash_append]
  simp only [pyDrop1_hash]
  rfl

theorem containsName_mono (s s' : State) (A : String)
    (hr : ∀ id, id ∈ s.rooms → id ∈ s'.rooms)
    (hf : ∀ i, (s'.heapF i).name = (s.heapF i).name ∨ (s'.heapF i).name = A) :
    containsName s A = true → containsName s' A = true := by
  simp only [containsName, List.any_eq_true]
  rintro ⟨id, hid, hname⟩
  refine ⟨id, hr id hid, ?_⟩
  rcases hf id with h | h
  · rw [h]; exact hname
  · simp [h]

/-- Counterexample for C1 at room name `A` from the freshly initialised
backend: the first `query_room '#A'` returns object 0 and registers it;
after joining through object 0, the second `query_room '#A'` returns the
distinct fresh object 1, which is not the registered instance and whose
joined flag is still false — the mutation is not observable through it. -/
theorem c1_counterexample :
    qrRid initState "#A" = 0 ∧
    qrRid (roomJoin (qrSt initState "#A") 0) "#A" = 1 ∧
    (qrSt (roomJoin (qrSt initState "#A") 0) "#A").rooms = [0] ∧
    ((qrSt (roomJoin (qrSt initState "#A") 0) "#A").heapF 0).joined = true ∧
    ((qrSt (roomJoin (qrSt initState "#A") 0) "#A").heapF 1).joined = false := by
  decide

theorem roomJoin_heapF (s : State) (r i : Nat) :
    (roomJoin s r).heapF i =
      if i = r then { s.heapF r with joined := true } else s.heapF i := rfl

theorem roomJoin_heapSize (s : State) (r : Nat) :
    (roomJoin s r).heapSize = s.heapSize := rfl

theorem roomJoin_rooms (s : State) (r : Nat) : (roomJoin s r).rooms = s.rooms := rfl

theorem mkRoomData_name (s : State) (n : String) (rid : Nat) :
    (mkRoomData s n rid).name = n := rfl

theorem mkRoomData_joined (s : State) (n : String) (rid : Nat) :
    (mkRoomData s n rid).joined = false := rfl

/-- C1 amended: resolving `#A` twice via `query_room` returns two rooms
that are equal by name but are distinct instances; the second resolution
registers nothing new (the registry keeps a single entry per name), and a
join performed through the first result is not observable through the
second, whose joined flag is still false. -/
theorem c1_amended_fresh_instances : ∀ (s : State) (A : String),
    ∃ r1 s1 r2 s2,
      query_room s ("#" ++ A) = .ok (r1, s1) ∧
      query_room (roomJoin s1 r1) ("#" ++ A) = .ok (r2, s2) ∧
      roomName s2 r1 = A ∧ roomName s2 r2 = A ∧
      r1 ≠ r2 ∧
      s2.rooms = (roomJoin s1 r1).rooms ∧
      (s2.heapF r1).joined = true ∧
      (s2.heapF r2).joined = false := by
  intro s A
  obtain ⟨s1, hq1, hsz1, hF1, hc1⟩ :
      ∃ s1, query_room s ("#" ++ A) = .ok (s.heapSize, s1) ∧
        s1.heapSize = s.heapSize + 1 ∧
        (∀ i, s1.heapF i =
          if i = s.heapSize then mkRoomData s A s.heapSize else s.heapF i) ∧
        containsName s1 A = true := by
    by_cases hc : containsName (allocRoom s A).2 A
    · exact ⟨(allocRoom s A).2, by rw [query_room_hash, if_pos hc]; rfl, rfl,
        fun i => rfl, hc⟩
    · refine ⟨{ (allocRoom s A).2 with
          rooms := (allocRoom s A).2.rooms ++ [(allocRoom s A).1] },
        by rw [query_room_hash, if_neg hc]; rfl, rfl, fun i => rfl, ?_⟩
      simp only [containsName, List.any_eq_true]
      exact ⟨s.heapSize, by simp [allocRoom], by simp [allocRoom, mkRoomData]⟩
  have hne : ¬ (s.heapSize = (roomJoin s1 s.heapSize).heapSize) := by
    rw [roomJoin_heapSize, hsz1]; omega
  have hc2 : containsName (allocRoom (roomJoin s1 s.heapSize) A).2 A = true := by
    refine containsName_mono s1 _ A ?_ ?_ hc1
    · intro id hid
      exact hid
    · intro i
      rw [allocRoom_snd_heapF]
      by_cases h2 : i = (roomJoin s1 s.heapSize).heapSize
      · right
        rw [if_pos h2, mkRoomData_name]
      · rw [if_neg h2, roomJoin_heapF]
        by_cases h3 : i = s.heapSize
        · subst h3
          left
          rw [if_pos rfl]
        · left
          rw [if_neg h3]
  refine ⟨s.heapSize, s1, (roomJoin s1 s.heapSize).heapSize,
      (allocRoom (roomJoin s1 s.heapSize) A).2, hq1, ?_, ?_, ?_, ?_, rfl, ?_, ?_⟩
  · rw [query_room_hash _ A, if_pos hc2]
    rfl
  · simp only [roomName]
    rw [allocRoom_snd_heapF, if_neg hne, roomJoin_heapF, if_pos rfl]
    show (s1.heapF s.heapSize).name = A
    rw [hF1, if_pos rfl, mkRoomData_name]
  · simp only [roomName]
    rw [allocRoom_snd_heapF, if_pos rfl, mkRoomData_name]
  · rw [roomJoin_heapSize, hsz1]
    omega
  · rw [allocRoom_snd_heapF, if_neg hne, roomJoin_heapF, if_pos rfl]
  · rw [allocRoom_snd_heapF, if_pos rfl, mkRoomData_joined]

/-! ### C2 -/

theorem splitSlashL_no_slash (l : List Char) (h : ∀ c ∈ l, c ≠ '/') :
    splitSlashL l = [l] := by
  induction l with
  | nil => rfl
  | cons c rest ih =>
    have hc : c ≠ '/' := h c (List.mem_cons_self c rest)
    have ih' := ih (fun x hx => h x (List.mem_cons_of_mem c hx))
    unfold splitSlashL
    rw [ih']
    simp [hc]

theorem splitSlashL_cons_append (a : List Char) (ha : ∀ c ∈ a, c ≠ '/')
    (l g : List Char) (gs : List (List Char)) (h : splitSlashL l = g :: gs) :
    splitSlashL (a ++ l) = (a ++ g) :: gs := by
  induction a with
  | nil => simpa using h
  | cons c a ih =>
    have hc : c ≠ '/' := ha c (List.mem_cons_self c a)
    have ih' := ih (fun x hx => ha x (List.mem_cons_of_mem c hx))
    rw [List.cons_append]
    unfold splitSlashL
    rw [ih']
    simp [hc]

theorem splitSlash_two (room person : String)
    (h1 : pyContains room '/' = false) (h2 : pyContains person '/' = false) :
    splitSlashL (room.data ++ '/' :: person.data) = [room.data, person.data] := by
  have hr : ∀ c ∈ room.data, c ≠ '/' := by
    simpa [pyContains, List.any_eq_true] using h1
  have hp : ∀ c ∈ person.data, c ≠ '/' := by
    simpa [pyContains, List.any_eq_true] using h2
  have hmid : splitSlashL ('/' :: person.data) = [] :: [person.data] := by
    unfold splitSlashL
    rw [splitSlashL_no_slash person.data hp]
    simp
  have hall := splitSlashL_cons_append room.data hr ('/' :: person.data)
      [] [person.data] hmid
  simpa using hall

/-- C2: `#room/person` resolves to an Occupant whose person identifier is
the part after the slash and whose room is a `TextRoom` named by the part
between `#` and the slash; the room registry is left untouched (so in
particular repeated resolution never adds a registry entry). -/
theorem c2_occupant_resolution : ∀ (s : State) (room person : String),
    pyContains room '/' = false → pyContains person '/' = false →
    ∃ rid s',
      build_identifier s ("#" ++ room ++ "/" ++ person) =
        .ok (.occupant { person := .person (mkTextPerson person), room := rid }, s') ∧
      roomName s' rid = room ∧
      s'.rooms = s.rooms := by
  intro s room person h1 h2
  set t := "#" ++ room ++ "/" ++ person with ht
  have hdata : t.data = '#' :: (room.data ++ '/' :: person.data) := by
    rw [ht]
    simp only [String.data_append, List.append_assoc]
    rfl
  have hstart : pyStartsWith t '#' = true := by
    unfold pyStartsWith
    rw [hdata]
    rfl
  have hcont : pyContains t '/' = true := by
    unfold pyContains
    rw [hdata]
    exact List.any_eq_true.2 ⟨'/', by simp, by simp⟩
  have hrem : pyDrop1 t = String.mk (room.data ++ '/' :: person.data) := by
    unfold pyDrop1
    rw [hdata]
    rfl
  have hsplit : splitSlash (pyDrop1 t) = [room, person] := by
    rw [hrem]
    unfold splitSlash
    show (splitSlashL (room.data ++ '/' :: person.data)).map String.mk = [room, person]
    rw [splitSlash_two room person h1 h2]
    rfl
  refine ⟨s.heapSize, (allocRoom s room).2, ?_, ?_, rfl⟩
  · unfold build_identifier
    simp only [hstart, hcont, hsplit, if_true]
    rfl
  · simp only [roomName]
    rw [allocRoom_snd_heapF, if_pos rfl, mkRoomData_name]

/-- Witness for C2 at the concrete token `#general/bob`. -/
theorem c2_occupant_resolution_witness :
    pyContains "general" '/' = false ∧ pyContains "bob" '/' = false ∧
    (∃ rid s',
      build_identifier initState ("#" ++ "general" ++ "/" ++ "bob") =
        .ok (.occupant { person := .person (mkTextPerson "bob"), room := rid }, s') ∧
      roomName s' rid = "general" ∧
      s'.rooms = initState.rooms) :=
  ⟨by decide, by decide,
   c2_occupant_resolution initState "general" "bob" (by decide) (by decide)⟩

/-! ### C5 -/

theorem allocRoom_fst (s : State) (n : String) : (allocRoom s n).1 = s.heapSize := rfl

theorem allocRoom_snd_rooms (s : State) (n : String) :
    (allocRoom s n).2.rooms = s.rooms := rfl

/-- C5: starting the session loop with an empty room registry leaves, at
the moment the loop (and hence the first input prompt) begins, a registry
holding exactly one room, named `testroom`, with its joined flag set;
with a non-empty registry the startup section changes nothing. -/
theorem c5_testroom_synthesis : ∀ s : State,
    (s.rooms = [] →
      (startup s).2.rooms = [s.heapSize] ∧
      roomName (startup s).2 s.heapSize = "testroom" ∧
      ((startup s).2.heapF s.heapSize).joined = true) ∧
    (s.rooms ≠ [] → (startup s).2 = s) := by
  intro s
  constructor
  · intro h
    have hie : s.rooms.isEmpty = true := by rw [h]; rfl
    have hc : ¬ (containsName (allocRoom s "testroom").2 "testroom" = true) := by
      simp only [containsName]
      rw [allocRoom_snd_rooms, h]
      simp
    have e1 : (startup s).2 =
        roomJoin { (allocRoom s "testroom").2 with
            rooms := (allocRoom s "testroom").2.rooms ++ [(allocRoom s "testroom").1] }
          (allocRoom s "testroom").1 := by
      unfold startup
      rw [if_pos hie,
        show query_room s "#testroom" = query_room s ("#" ++ "testroom") from rfl,
        query_room_hash, if_neg hc]
    refine ⟨?_, ?_, ?_⟩
    · rw [e1, roomJoin_rooms]
      show (allocRoom s "testroom").2.rooms ++ [(allocRoom s "testroom").1] = [s.heapSize]
      rw [allocRoom_snd_rooms, h]
      rfl
    · simp only [roomName]
      rw [e1, roomJoin_heapF, allocRoom_fst, if_pos rfl]
      show ((allocRoom s "testroom").2.heapF s.heapSize).name = "testroom"
      rw [allocRoom_snd_heapF, if_pos rfl, mkRoomData_name]
    · rw [e1, roomJoin_heapF, allocRoom_fst, if_pos rfl]
  · intro h
    have hie : ¬ (s.rooms.isEmpty = true) := by
      cases hr : s.rooms with
      | nil => exact absurd hr h
      | cons a l => simp
    unfold startup
    rw [if_neg hie]

/-- Witness for C5: the empty-registry branch at the freshly initialised
backend, the non-empty branch at a state with one registered room. -/
theorem c5_testroom_synthesis_witness :
    (initState.rooms = [] ∧
      ((startup initState).2.rooms = [initState.heapSize] ∧
        roomName (startup initState).2 initState.heapSize = "testroom" ∧
        ((startup initState).2.heapF initState.heapSize).joined = true)) ∧
    (roomedState.rooms ≠ [] ∧ (startup roomedState).2 = roomedState) :=
  ⟨⟨rfl, (c5_testroom_synthesis initState).1 rfl⟩,
   ⟨by decide, (c5_testroom_synthesis roomedState).2 (by decide)⟩⟩

/-! ### C6 -/

/-- The exception, if any, raised by one round of mention resolution. -/
def mentionsErr (s : State) (entry : String) : Option Err :=
  match resolveMentions s entry with
  | .error e => some e
  | .ok _ => none

/-- C6 (code bug): on the line `hello @bob and @carol` the scanner does
find the two mention tokens, but the loop then calls `build_identifier`
on each token with its leading `@` stripped; `build_identifier` rejects
any token without a `#`/`@` prefix, so the iteration raises the
InvalidIdentifier ValueError, the loop exits through the cleanup block,
and the mention callback is never invoked. -/
theorem c6_mention_scan_raises :
    findMentions "hello @bob and @carol" = ["@bob", "@carol"] ∧
    mentionsErr initState "hello @bob and @carol" =
      some (.valueError invalidIdentifierMsg) ∧
    (serve_forever initState [.line "hello @bob and @carol" false]).2.2 =
      .raised (.valueError invalidIdentifierMsg) ∧
    (serve_forever initState [.line "hello @bob and @carol" false]).1.all
      (fun e => !isMentionCb e) = true := by
  decide

/-! ### C4 -/

theorem loopRun_no_cleanup : ∀ (inps : List Inp) (s : State),
    ((loopRun s inps).1.all fun e => !isCleanupEff e) = true := by
  intro inps
  induction inps with
  | nil => intro s; rfl
  | cons i rest ih =>
    intro s
    cases i with
    | eof => rfl
    | interrupt => rfl
    | line entry hr =>
      rw [loopRun]
      split
      · rfl
      · split
        · rfl
        · split
          · rfl
          · rename_i frm toI hok b ids s' hrm
            simp only [List.all_append, ih, Bool.and_true]
            split
            · rfl
            · rfl

/-- C4: whenever the session loop actually exits — caught end-of-input or
interrupt, or any exception propagating out of an iteration (the
inbound-message handler raising included) — the emitted trace ends with
the offline presence notification, the disconnect callback and the
shutdown call, in that order, and none of those cleanup effects occurs
anywhere earlier in the trace (hence each happens exactly once). -/
theorem c4_cleanup_sequence : ∀ (s : State) (inps : List Inp),
    (serve_forever s inps).2.2 ≠ .pending →
    ∃ pre u, (serve_forever s inps).1 =
        pre ++ [.presence u .offline, .disconnect, .shutdown] ∧
      ∀ x ∈ pre, isCleanupEff x = false := by
  intro s inps hne
  by_cases hp : (loopRun (startup s).2 inps).2.2 = .pending
  · exfalso
    apply hne
    simp only [serve_forever]
    rw [if_pos hp]
    exact hp
  · refine ⟨(startup s).1 ++ (loopRun (startup s).2 inps).1,
      (loopRun (startup s).2 inps).2.1.user, ?_, ?_⟩
    · simp only [serve_forever]
      rw [if_neg hp]
    · intro x hx
      rcases List.mem_append.1 hx with hx | hx
      · have hst : (startup s).1 =
            [Eff.injectCommands, Eff.connect,
             Eff.presence ((startup s).2).user .online] := rfl
        rw [hst] at hx
        simp only [List.mem_cons, List.not_mem_nil, or_false] at hx
        rcases hx with hx | hx | hx <;> subst hx <;> rfl
      · have hall := loopRun_no_cleanup inps (startup s).2
        rw [List.all_eq_true] at hall
        simpa using hall x hx

/-- Witness for C4 at a session that receives end-of-input immediately. -/
theorem c4_cleanup_sequence_witness :
    (serve_forever initState [.eof]).2.2 ≠ .pending ∧
    (∃ pre u, (serve_forever initState [.eof]).1 =
        pre ++ [.presence u .offline, .disconnect, .shutdown] ∧
      ∀ x ∈ pre, isCleanupEff x = false) :=
  ⟨by decide, c4_cleanup_sequence initState [.eof] (by decide)⟩

/-! ### C3 -/

theorem allocRoom_snd_heapSize (s : State) (n : String) :
    (allocRoom s n).2.heapSize = s.heapSize + 1 := rfl

theorem regOk_extend (s s' : State)
    (hsz : s.heapSize ≤ s'.heapSize)
    (hname : ∀ j, j < s.heapSize → roomName s' j = roomName s j)
    (hrooms : s'.rooms = s.rooms ∨
      (∃ rid, s.heapSize ≤ rid ∧ rid < s'.heapSize ∧ s'.rooms = s.rooms ++ [rid] ∧
        ∀ id ∈ s.rooms, id < s.heapSize → roomName s' id ≠ roomName s' rid))
    (h : RegOk s) : RegOk s' ∧ ∃ t, s'.rooms = s.rooms ++ t := by
  obtain ⟨hval, hnd⟩ := h
  have hmap : s.rooms.map (roomName s') = s.rooms.map (roomName s) :=
    List.map_congr_left (fun a ha => hname a (hval a ha))
  rcases hrooms with hr | ⟨rid, hr1, hr2, hr3, hr4⟩
  · refine ⟨⟨?_, ?_⟩, [], by simp [hr]⟩
    · intro id hid
      rw [hr] at hid
      exact lt_of_lt_of_le (hval id hid) hsz
    · rw [hr, hmap]
      exact hnd
  · refine ⟨⟨?_, ?_⟩, [rid], hr3⟩
    · intro id hid
      rw [hr3] at hid
      rcases List.mem_append.1 hid with hid | hid
      · exact lt_of_lt_of_le (hval id hid) hsz
      · simp only [List.mem_singleton] at hid
        subst hid
        exact hr2
    · rw [hr3, List.map_append, List.nodup_append]
      refine ⟨by rw [hmap]; exact hnd, by simp, ?_⟩
      intro x hx1 hx2
      simp only [List.map_cons, List.map_nil, List.mem_singleton] at hx2
      rcases List.mem_map.1 hx1 with ⟨id, hid, hxe⟩
      exact hr4 id hid (hval id hid) (by rw [hxe, hx2])

theorem query_room_ok_spec (s : State) (t : String) (rid : Nat) (s' : State)
    (h : query_room s t = .ok (rid, s')) :
    rid = s.heapSize ∧ s'.heapSize = s.heapSize + 1 ∧
    (∀ j, j < s.heapSize → roomName s' j = roomName s j) ∧
    roomName s' rid = pyDrop1 t ∧
    (s'.rooms = s.rooms ∨
      (s'.rooms = s.rooms ++ [rid] ∧
        ∀ id ∈ s.rooms, id < s.heapSize → roomName s' id ≠ roomName s' rid)) := by
  unfold query_room at h
  split at h
  · exact absurd h (by simp)
  · split at h
    · exact absurd h (by simp)
    · dsimp only at h
      split at h
      · -- contains: registry unchanged, s' = (allocRoom s (pyDrop1 t)).2
        rename_i c cs hd hc hcn
        injection h with h2
        have hrid : rid = (allocRoom s (pyDrop1 t)).1 := (congrArg Prod.fst h2).symm
        have hs' : s' = (allocRoom s (pyDrop1 t)).2 := (congrArg Prod.snd h2).symm
        subst hrid
        subst hs'
        refine ⟨rfl, rfl, ?_, ?_, Or.inl rfl⟩
        · intro j hj
          simp only [roomName]
          rw [allocRoom_snd_heapF, if_neg (by omega)]
        · simp only [roomName, allocRoom_fst]
          rw [allocRoom_snd_heapF, if_pos rfl, mkRoomData_name]
      · rename_i c cs hd hc hcn
        injection h with h2
        have hrid : rid = (allocRoom s (pyDrop1 t)).1 := (congrArg Prod.fst h2).symm
        have hs' : s' = { (allocRoom s (pyDrop1 t)).2 with
            rooms := (allocRoom s (pyDrop1 t)).2.rooms ++ [(allocRoom s (pyDrop1 t)).1] } :=
          (congrArg Prod.snd h2).symm
        subst hrid
        subst hs'
        refine ⟨rfl, rfl, ?_, ?_, Or.inr ⟨rfl, ?_⟩⟩
        · intro j hj
          simp only [roomName]
          rw [allocRoom_snd_heapF, if_neg (by omega)]
        · simp only [roomName, allocRoom_fst]
          rw [allocRoom_snd_heapF, if_pos rfl, mkRoomData_name]
        · intro id hid hlt
          simp only [containsName, List.any_eq_true, not_exists] at hcn
          push_neg at hcn
          have hne := hcn id (by rw [allocRoom_snd_rooms]; exact hid)
          have hne2 : ((allocRoom s (pyDrop1 t)).2.heapF id).name ≠ pyDrop1 t := by
            simpa using hne
          rw [allocRoom_snd_heapF, if_neg (by omega)] at hne2
          simp only [roomName, allocRoom_fst]
          rw [allocRoom_snd_heapF, if_neg (by omega),
            allocRoom_snd_heapF, if_pos rfl, mkRoomData_name]
          exact hne2

theorem build_identifier_ok_state (s : State) (t : String) (i : Ident) (s' : State)
    (h : build_identifier s t = .ok (i, s')) :
    s' = s ∨ (∃ n, s' = (allocRoom s n).2) ∨
      (∃ rid, query_room s (pyDrop1 t) = .ok (rid, s')) := by
  unfold build_identifier at h
  split at h
  · dsimp only at h
    split at h
    · split at h
      · injection h with h2
        have hs2 : s' = (allocRoom s _).2 := (congrArg Prod.snd h2).symm
        exact Or.inr (Or.inl ⟨_, hs2⟩)
      · exact absurd h (by simp)
    · split at h
      · rename_i rid s2 hq
        injection h with h2
        have hs2 : s2 = s' := congrArg Prod.snd h2
        refine Or.inr (Or.inr ⟨rid, ?_⟩)
        rw [hq, hs2]
      · exact absurd h (by simp)
  · split at h
    · injection h with h2
      exact Or.inl (congrArg Prod.snd h2).symm
    · exact absurd h (by simp)

theorem startup_empty_facts (s : State) (h : s.rooms = []) :
    (startup s).2.rooms = [s.heapSize] ∧ (startup s).2.heapSize = s.heapSize + 1 := by
  have hie : s.rooms.isEmpty = true := by rw [h]; rfl
  have hc : ¬ (containsName (allocRoom s "testroom").2 "testroom" = true) := by
    simp only [containsName]
    rw [allocRoom_snd_rooms, h]
    simp
  have e1 : (startup s).2 =
      roomJoin { (allocRoom s "testroom").2 with
          rooms := (allocRoom s "testroom").2.rooms ++ [(allocRoom s "testroom").1] }
        (allocRoom s "testroom").1 := by
    unfold startup
    rw [if_pos hie,
      show query_room s "#testroom" = query_room s ("#" ++ "testroom") from rfl,
      query_room_hash, if_neg hc]
  constructor
  · rw [e1, roomJoin_rooms]
    show (allocRoom s "testroom").2.rooms ++ [(allocRoom s "testroom").1] = [s.heapSize]
    rw [allocRoom_snd_rooms, h]
    rfl
  · rw [e1, roomJoin_heapSize]
    rfl

theorem startup_nonempty_id (s : State) (h : ¬ (s.rooms.isEmpty = true)) :
    (startup s).2 = s := by
  unfold startup
  rw [if_neg h]

theorem stepOp_reg (s : State) (op : SOp) (h : RegOk s) :
    RegOk (stepOp s op) ∧ ∃ t, (stepOp s op).rooms = s.rooms ++ t := by
  cases op with
  | opQuery t =>
    simp only [stepOp]
    cases hq : query_room s t with
    | error e => exact ⟨h, [], by simp⟩
    | ok pr =>
      obtain ⟨rid, s'⟩ := pr
      show RegOk s' ∧ ∃ u, s'.rooms = s.rooms ++ u
      obtain ⟨h1, h2, h3, _, h5⟩ := query_room_ok_spec s t rid s' hq
      apply regOk_extend s s' (by omega) h3 ?_ h
      rcases h5 with h5 | ⟨h5a, h5b⟩
      · exact Or.inl h5
      · exact Or.inr ⟨rid, by omega, by omega, h5a, h5b⟩
  | opBuild t =>
    simp only [stepOp]
    cases hb : build_identifier s t with
    | error e => exact ⟨h, [], by simp⟩
    | ok pr =>
      obtain ⟨i, s'⟩ := pr
      show RegOk s' ∧ ∃ u, s'.rooms = s.rooms ++ u
      rcases build_identifier_ok_state s t i s' hb with h1 | ⟨n, h1⟩ | ⟨rid, h1⟩
      · subst h1
        exact ⟨h, [], by simp⟩
      · subst h1
        apply regOk_extend s _ (Nat.le_succ s.heapSize) ?_
          (Or.inl (allocRoom_snd_rooms s n)) h
        intro j hj
        simp only [roomName]
        rw [allocRoom_snd_heapF, if_neg (by omega)]
      · obtain ⟨q1, q2, q3, _, q5⟩ := query_room_ok_spec s (pyDrop1 t) rid s' h1
        apply regOk_extend s s' (by omega) q3 ?_ h
        rcases q5 with q5 | ⟨q5a, q5b⟩
        · exact Or.inl q5
        · exact Or.inr ⟨rid, by omega, by omega, q5a, q5b⟩
  | opServeStart =>
    simp only [stepOp]
    by_cases hie : s.rooms.isEmpty = true
    · have hr : s.rooms = [] := by
        cases hl : s.rooms with
        | nil => rfl
        | cons a l => rw [hl] at hie; simp at hie
      obtain ⟨f1, f2⟩ := startup_empty_facts s hr
      refine ⟨⟨?_, ?_⟩, [s.heapSize], by rw [f1, hr]; rfl⟩
      · intro id hid
        rw [f1] at hid
        simp only [List.mem_singleton] at hid
        subst hid
        rw [f2]
        omega
      · rw [f1]
        simp
    · have he : (startup s).2 = s := startup_nonempty_id s hie
      rw [he]
      exact ⟨h, [], by simp⟩

/-- C3: across any sequence of `query_room`, `build_identifier` and
loop-startup operations, the room registry only ever grows (no entry is
ever removed) and never holds two entries with the same room name. -/
theorem c3_registry_invariant : ∀ (ops : List SOp) (s : State), RegOk s →
    RegOk (runOps s ops) ∧ ∃ t, (runOps s ops).rooms = s.rooms ++ t := by
  intro ops
  induction ops with
  | nil =>
    intro s h
    exact ⟨h, [], by simp [runOps]⟩
  | cons op rest ih =>
    intro s h
    obtain ⟨h1, t1, ht1⟩ := stepOp_reg s op h
    obtain ⟨hA, t2, ht2⟩ := ih (stepOp s op) h1
    have hrw : runOps s (op :: rest) = runOps (stepOp s op) rest := rfl
    refine ⟨by rw [hrw]; exact hA, t1 ++ t2, ?_⟩
    rw [hrw, ht2, ht1, List.append_assoc]

/-- Witness for C3: a concrete operation sequence from the freshly
initialised backend. -/
theorem c3_registry_invariant_witness :
    RegOk initState ∧
    (RegOk (runOps initState
        [.opQuery "#A", .opBuild "#A/bob", .opServeStart, .opQuery "#A"]) ∧
      ∃ t, (runOps initState
        [.opQuery "#A", .opBuild "#A/bob", .opServeStart, .opQuery "#A"]).rooms =
          initState.rooms ++ t) := by
  have h0 : RegOk initState := by
    constructor
    · intro id hid
      simp [initState] at hid
    · simp [initState]
  exact ⟨h0, c3_registry_invariant
    [.opQuery "#A", .opBuild "#A/bob", .opServeStart, .opQuery "#A"] initState h0⟩

/-- Witness for C9 at two concrete persons that differ in every optional
field but share the identifier string. -/
theorem c9_person_occupant_equality_witness :
    textPersonEq { person := "bob", client := some "slack" }
        { person := "bob", nick := some "bobby" } = true ∧
    textPersonHash { person := "bob", client := some "slack" } =
      textPersonHash { person := "bob", nick := some "bobby" } :=
  ⟨by decide,
   (c9_person_occupant_equality { person := "bob", client := some "slack" }
      { person := "bob", nick := some "bobby" } initState
      { person := .str "somebody", room := 0 }
      { person := .str "somebody", room := 0 }).2.1 (by decide)⟩
